import Mathlib

/-!
Verification of the chunking-demo repository: a browser producer that slices
captured media frames into bounded pieces and streams them over a WebSocket
(`src/App.js`), and a Node server that aggregates the received frames into
S3 multipart-upload parts (`src/server.mjs`).

Byte sequences are modelled as `List Nat`.  On the server side the control
flow depends only on the lengths of the received binary frames (bodies are
passed opaquely to the store), so server frames are tracked by their byte
length; the client-side slicer, whose contract is about byte-for-byte
concatenation, keeps the full byte lists.
-/

/-! ### FrameSlicer (`src/App.js`, `sliceIntoChunks`) -/

/-- An index of JavaScript `ArrayBuffer.slice` resolved against a buffer of
length `len`: a negative index counts from the end, and the result is clamped
to `[0, len]`. -/
def jsClamp (len : Nat) (i : Int) : Int :=
  if i < 0 then max ((len : Int) + i) 0 else min i len

/-- The semantics of JavaScript `ArrayBuffer.slice(start, end)` on a byte
list. -/
def jsSlice (buf : List Nat) (start fin : Int) : List Nat :=
  (buf.drop (jsClamp buf.length start).toNat).take
    (jsClamp buf.length fin - jsClamp buf.length start).toNat

/-- Direct transcription of the loop
`for (let o = 0; o < arrayBuffer.byteLength; o += size) out.push(arrayBuffer.slice(o, o + size))`
from `sliceIntoChunks` in `src/App.js`.  `fuel` bounds the number of loop
iterations; `none` means the loop did not finish within `fuel` iterations
(for a negative `size` the loop in the source never exits). -/
def sliceLoopJS (buf : List Nat) (size : Int) : Nat → Int → List (List Nat) → Option (List (List Nat))
  | 0, o, acc => if o < (buf.length : Int) then none else some acc
  | fuel + 1, o, acc =>
    if o < (buf.length : Int) then
      sliceLoopJS buf size fuel (o + size) (acc ++ [jsSlice buf o (o + size)])
    else some acc

/-- Transcription of `sliceIntoChunks(arrayBuffer, size)` from `src/App.js`
for an arbitrary integer `size`.  The guard `if (!size) return [arrayBuffer]`
fires exactly when `size = 0` (or is unset, which we model as `0`). -/
def sliceIntoChunksJS (buf : List Nat) (size : Int) (fuel : Nat) : Option (List (List Nat)) :=
  if size = 0 then some [buf] else sliceLoopJS buf size fuel 0 []

/-- The slicing loop for a positive chunk size, phrased structurally: the
chunk size is `size + 1`, so the recursion always consumes at least one
element.  Each step takes `buf.slice(o, o + size)` — equivalently, the first
`size + 1` elements — and recurses on the rest, exactly as the loop in
`sliceIntoChunks` does for a positive `size`. -/
def chunksPos (size : Nat) : List Nat → List (List Nat)
  | [] => []
  | b :: bs => (b :: bs.take size) :: chunksPos size (bs.drop size)
  termination_by l => l.length
  decreasing_by simp [List.length_drop]; omega

/-- `sliceIntoChunks` from `src/App.js` restricted to a nonnegative `size`
(the loop terminates there); agreement with the direct transcription
`sliceIntoChunksJS` is proved below. -/
def sliceIntoChunks (buf : List Nat) (size : Nat) : List (List Nat) :=
  if size = 0 then [buf] else chunksPos (size - 1) buf

theorem chunksPos_cons (size : Nat) (b : Nat) (bs : List Nat) :
    chunksPos size (b :: bs) = (b :: bs.take size) :: chunksPos size (bs.drop size) := by
  rw [chunksPos]

theorem chunksPos_length_le (size : Nat) :
    ∀ (n : Nat) (buf : List Nat), buf.length ≤ n →
      ∀ c ∈ chunksPos size buf, c.length ≤ size + 1 := by
  intro n
  induction n with
  | zero =>
    intro buf hlen c hc
    have : buf = [] := List.eq_nil_of_length_eq_zero (Nat.le_zero.mp hlen)
    subst this
    simp [chunksPos] at hc
  | succ n ih =>
    intro buf hlen c hc
    cases buf with
    | nil => simp [chunksPos] at hc
    | cons b bs =>
      rw [chunksPos_cons] at hc
      rcases List.mem_cons.mp hc with hc | hc
      · subst hc
        simp only [List.length_cons]
        have : (bs.take size).length ≤ size := by
          simp [List.length_take]
        omega
      · exact ih (bs.drop size) (by simp at hlen ⊢; omega) c hc

theorem chunksPos_flatten (size : Nat) :
    ∀ (n : Nat) (buf : List Nat), buf.length ≤ n →
      (chunksPos size buf).flatten = buf := by
  intro n
  induction n with
  | zero =>
    intro buf hlen
    have : buf = [] := List.eq_nil_of_length_eq_zero (Nat.le_zero.mp hlen)
    subst this; simp [chunksPos]
  | succ n ih =>
    intro buf hlen
    cases buf with
    | nil => simp [chunksPos]
    | cons b bs =>
      rw [chunksPos_cons]
      simp only [List.flatten_cons]
      rw [ih (bs.drop size) (by simp at hlen ⊢; omega)]
      simp [List.take_append_drop]

theorem chunksPos_count (size : Nat) :
    ∀ (n : Nat) (buf : List Nat), buf.length ≤ n →
      (chunksPos size buf).length = (buf.length + size) / (size + 1) := by
  intro n
  induction n with
  | zero =>
    intro buf hlen
    have : buf = [] := List.eq_nil_of_length_eq_zero (Nat.le_zero.mp hlen)
    subst this
    simp [chunksPos, Nat.div_eq_of_lt (by omega : size < size + 1)]
  | succ n ih =>
    intro buf hlen
    cases buf with
    | nil => simp [chunksPos, Nat.div_eq_of_lt (by omega : size < size + 1)]
    | cons b bs =>
      rw [chunksPos_cons]
      simp only [List.length_cons]
      rw [ih (bs.drop size) (by simp at hlen ⊢; omega)]
      simp only [List.length_drop]
      rcases le_or_lt bs.length size with hle | hlt
      · have h2 : (bs.length - size + size) / (size + 1) = 0 := Nat.div_eq_of_lt (by omega)
        have h3 : (bs.length + 1 + size) / (size + 1) = 1 := by
          rw [Nat.div_eq_of_lt_le] <;> omega
        rw [h2, h3]
      · have h1 : bs.length - size + size = bs.length := by omega
        have h2 : bs.length + 1 + size = (bs.length - size + size) + (size + 1) := by omega
        rw [h2, Nat.add_div_right _ (by omega), h1]

theorem jsSlice_nat (buf : List Nat) (o size : Nat) :
    jsSlice buf (o : Int) ((o : Int) + (size : Int)) = (buf.drop o).take size := by
  unfold jsSlice jsClamp
  rw [if_neg (by omega : ¬ ((o : Int) < 0)),
      if_neg (by omega : ¬ ((o : Int) + (size : Int) < 0))]
  rcases le_or_lt o buf.length with hol | hol
  · have hmin : min (o : Int) (buf.length : Int) = (o : Int) := by omega
    rw [hmin]
    rcases le_or_lt (o + size) buf.length with hos | hos
    · have hmin2 : min ((o : Int) + (size : Int)) (buf.length : Int)
          = (o : Int) + (size : Int) := by omega
      rw [hmin2]
      have h1 : ((o : Int) + (size : Int) - (o : Int)).toNat = size := by omega
      have h2 : ((o : Int)).toNat = o := by omega
      rw [h1, h2]
    · have hmin2 : min ((o : Int) + (size : Int)) (buf.length : Int)
          = (buf.length : Int) := by omega
      rw [hmin2]
      have h1 : ((buf.length : Int) - (o : Int)).toNat = buf.length - o := by omega
      have h2 : ((o : Int)).toNat = o := by omega
      rw [h1, h2,
          List.take_of_length_le (by rw [List.length_drop]),
          List.take_of_length_le (by rw [List.length_drop]; omega)]
  · have hmin : min (o : Int) (buf.length : Int) = (buf.length : Int) := by omega
    rw [hmin]
    have hd : buf.drop o = [] := List.drop_eq_nil_of_le (by omega)
    have hmin2 : min ((o : Int) + (size : Int)) (buf.length : Int)
        = (buf.length : Int) := by omega
    rw [hmin2, hd]
    simp

theorem sliceLoopJS_done (buf : List Nat) (size : Int) (fuel : Nat) (o : Int)
    (acc : List (List Nat)) (h : (buf.length : Int) ≤ o) :
    sliceLoopJS buf size fuel o acc = some acc := by
  cases fuel <;> rw [sliceLoopJS, if_neg (by omega)]

theorem sliceLoopJS_pos (buf : List Nat) (size : Nat) (hs : 0 < size) :
    ∀ (fuel o : Nat) (acc : List (List Nat)), buf.length - o ≤ fuel →
      sliceLoopJS buf (size : Int) fuel (o : Int) acc
        = some (acc ++ chunksPos (size - 1) (buf.drop o)) := by
  obtain ⟨t, ht⟩ : ∃ t, size = t + 1 := ⟨size - 1, by omega⟩
  subst ht
  simp only [Nat.add_sub_cancel]
  intro fuel
  induction fuel with
  | zero =>
    intro o acc hf
    have ho : buf.length ≤ o := by omega
    rw [sliceLoopJS_done buf _ _ _ _ (by omega),
        List.drop_eq_nil_of_le ho]
    simp [chunksPos]
  | succ fuel ih =>
    intro o acc hf
    rcases le_or_lt buf.length o with ho | ho
    · rw [sliceLoopJS_done buf _ _ _ _ (by omega),
          List.drop_eq_nil_of_le ho]
      simp [chunksPos]
    · rw [sliceLoopJS, if_pos (by omega : (o : Int) < (buf.length : Int))]
      obtain ⟨b, bs, hbs⟩ := List.exists_cons_of_ne_nil
        (l := buf.drop o) (by rw [← List.length_pos, List.length_drop]; omega)
      have hdd : buf.drop (o + (t + 1)) = bs.drop t := by
        rw [← List.drop_drop, hbs, List.drop_succ_cons]
      have hslice : jsSlice buf (o : Int) ((o : Int) + ((t + 1 : Nat) : Int))
          = b :: bs.take t := by
        rw [jsSlice_nat, hbs, List.take_succ_cons]
      have hcast : (o : Int) + ((t + 1 : Nat) : Int) = ((o + (t + 1) : Nat) : Int) := by
        push_cast; ring
      rw [hslice, hcast, ih (o + (t + 1)) _ (by omega), hdd, hbs, chunksPos_cons]
      simp

theorem sliceLoopJS_neg (buf : List Nat) (size : Int) (hneg : size < 0)
    (hne : buf ≠ []) :
    ∀ (fuel : Nat) (o : Int), o ≤ 0 → ∀ acc, sliceLoopJS buf size fuel o acc = none := by
  have hlen : 0 < buf.length := List.length_pos.mpr hne
  intro fuel
  induction fuel with
  | zero =>
    intro o ho acc
    rw [sliceLoopJS, if_pos (by omega : o < (buf.length : Int))]
  | succ fuel ih =>
    intro o ho acc
    rw [sliceLoopJS, if_pos (by omega : o < (buf.length : Int))]
    exact ih (o + size) (by omega) _

/-- Claim C1: for every input byte sequence and every `chunkSize > 0`, the
slicer `sliceIntoChunks` produces pieces each of length at most `chunkSize`
whose in-order concatenation equals the input exactly; the number of pieces
is `ceil(length / chunkSize)`; a zero-length input yields no piece; and the
direct fuel-based transcription of the source loop agrees. -/
theorem c1_slicer_correct (buf : List Nat) (size : Nat) (h : 0 < size) :
    (∀ c ∈ sliceIntoChunks buf size, c.length ≤ size) ∧
    (sliceIntoChunks buf size).flatten = buf ∧
    (sliceIntoChunks buf size).length = (buf.length + size - 1) / size ∧
    (buf = [] → sliceIntoChunks buf size = []) ∧
    sliceIntoChunksJS buf (size : Int) buf.length = some (sliceIntoChunks buf size) := by
  have hsz : size - 1 + 1 = size := by omega
  unfold sliceIntoChunks
  rw [if_neg (by omega : ¬ size = 0)]
  refine ⟨?_, ?_, ?_, ?_, ?_⟩
  · intro c hc
    have := chunksPos_length_le (size - 1) buf.length buf (le_refl _) c hc
    omega
  · exact chunksPos_flatten (size - 1) buf.length buf (le_refl _)
  · rw [chunksPos_count (size - 1) buf.length buf (le_refl _), hsz]
    congr 1
    omega
  · intro hb; subst hb; rw [chunksPos]
  · unfold sliceIntoChunksJS
    rw [if_neg (by omega : ¬ (size : Int) = 0)]
    have h0 : ((0 : Nat) : Int) = (0 : Int) := rfl
    rw [← h0, sliceLoopJS_pos buf size h buf.length 0 [] (by omega)]
    simp

/-- Claim C1 witness: the slicer evaluated at the concrete input
`[1, 2, 3]` with chunk size 2. -/
theorem c1_slicer_correct_witness :
    (sliceIntoChunks [1, 2, 3] 2).flatten = [1, 2, 3] ∧
    (sliceIntoChunks [1, 2, 3] 2).length = 2 := by
  obtain ⟨_, hflat, hlen, _, _⟩ := c1_slicer_correct [1, 2, 3] 2 (by decide)
  exact ⟨hflat, by rw [hlen]; rfl⟩

/-- Claim C8 counterexample: for `chunkSize = -1` (so `chunkSize ≤ 0`) and a
zero-length input, the source loop terminates immediately and returns zero
pieces, not the single piece the claim asserts for `chunkSize ≤ 0`. -/
theorem c8_counterexample :
    sliceIntoChunksJS [] (-1) 5 = some [] ∧
    Option.map List.length (sliceIntoChunksJS [] (-1) 5) ≠ some 1 := by
  constructor <;> decide

/-- Claim C8 (amended): for `chunkSize = 0` (or unset) the slicer returns the
single unsliced input, even for a zero-length input.  For a negative
`chunkSize` the code does not fail fast: on a nonempty input the loop never
terminates (it exhausts every fuel bound), and on an empty input it returns
zero pieces rather than one. -/
theorem c8_slicer_termination_amended (buf : List Nat) (size : Int) (fuel : Nat) :
    sliceIntoChunksJS buf 0 fuel = some [buf] ∧
    (size < 0 → buf ≠ [] → sliceIntoChunksJS buf size fuel = none) ∧
    (size < 0 → sliceIntoChunksJS [] size fuel = some []) := by
  refine ⟨?_, ?_, ?_⟩
  · unfold sliceIntoChunksJS
    rw [if_pos rfl]
  · intro hneg hne
    unfold sliceIntoChunksJS
    rw [if_neg (by omega)]
    exact sliceLoopJS_neg buf size hneg hne fuel 0 (by omega) []
  · intro hneg
    unfold sliceIntoChunksJS
    rw [if_neg (by omega)]
    exact sliceLoopJS_done [] size fuel 0 [] (by simp)

/-- Claim C8 witness: concrete evaluations of the amended statement. -/
theorem c8_slicer_termination_amended_witness :
    sliceIntoChunksJS [7] (-2) 9 = none ∧ sliceIntoChunksJS [7, 8] 0 3 = some [[7, 8]] := by
  refine ⟨(c8_slicer_termination_amended [7] (-2) 9).2.1 (by decide) (by decide),
          (c8_slicer_termination_amended [7, 8] 0 3).1⟩

/-! ### Producer connection state machine (`src/App.js`, `startConnection`) -/

/-- The `status` values of the producer UI state machine in `src/App.js`. -/
inductive Status where
  | Idle | Connecting | StartingUpload | Ready | Recording | Stopping | Completed | Error
deriving DecidableEq, Repr

/-- The producer-local state touched by the WebSocket `onmessage` handler in
`src/App.js`: the `status` state variable, the `sessionReadyRef` flag, the
`uploadKey`, `partsUploaded` and `bytesSent` state variables, the `errorMsg`
state variable, and `resolveCount`, the number of times
`resolveSessionReadyRef.current()` has been invoked (observing the promise
resolution side effect). -/
structure ClientState where
  status : Status
  sessionReady : Bool
  uploadKey : Option String
  partsUploaded : Nat
  bytesSent : Nat
  errorMsg : Option String
  resolveCount : Nat
deriving DecidableEq, Repr

/-- The control messages the producer's `onmessage` handler dispatches on:
`uploadInfo`, `partAck`, `completed`, `error`, any other JSON `type`
(ignored by the `default` branch), and a non-JSON payload (ignored by the
`catch` branch). -/
inductive ClientMsg where
  | uploadInfo (key : String)
  | partAck
  | completed
  | error (message : String)
  | otherType
  | nonJson
deriving DecidableEq, Repr

/-- The `canConnect` gate of `src/App.js` (`['Idle', 'Error', 'Completed'].includes(status)`):
the Connect button — the only caller of `startConnection` — is enabled only
in these statuses, so the handler installed by `startConnection` is always
created from a render whose `status` is one of them. -/
def canConnect (st : Status) : Bool :=
  st == Status.Idle || st == Status.Error || st == Status.Completed

/-- Transcription of the `wsRef.current.onmessage` switch in `src/App.js`,
as a transition on the producer state.  The handler is a closure created
inside `startConnection`: the refs it reads (`sessionReadyRef`,
`resolveSessionReadyRef`) are live, and the `setXxx` state setters always
apply to the current state, but the plain state variable `status` read in
the `error` case is the value captured at the render in which
`startConnection` ran — passed here as `captured`, a value satisfying
`canConnect` (see `canConnect`).
`uploadInfo`: `setUploadKey(msg.key)` unconditionally, then — only if
`sessionReadyRef.current` is still false — set it, resolve the session-ready
promise and `setStatus('Ready')`.  `partAck`: increment `partsUploaded`.
`completed`: `setStatus('Completed')`.  `error`: `setErrorMsg(msg.message)`
and, unless the captured `status` is `Recording`, `setStatus('Error')`. -/
def onMessage (captured : Status) (m : ClientMsg) (s : ClientState) : ClientState :=
  match m with
  | ClientMsg.uploadInfo k =>
    let s1 := { s with uploadKey := some k }
    if s1.sessionReady then s1
    else { s1 with sessionReady := true, resolveCount := s1.resolveCount + 1,
                   status := Status.Ready }
  | ClientMsg.partAck => { s with partsUploaded := s.partsUploaded + 1 }
  | ClientMsg.completed => { s with status := Status.Completed }
  | ClientMsg.error msg =>
    let s1 := { s with errorMsg := some msg }
    if captured = Status.Recording then s1 else { s1 with status := Status.Error }
  | ClientMsg.otherType => s
  | ClientMsg.nonJson => s

/-- A producer state that is already Ready, holding upload key "k1". -/
def readyState : ClientState :=
  { status := Status.Ready, sessionReady := true, uploadKey := some "k1",
    partsUploaded := 0, bytesSent := 0, errorMsg := none, resolveCount := 1 }

/-- Claim C5 counterexample: a second `uploadInfo` received while the
producer is already Ready is not a no-op on the producer state — the handler
runs `setUploadKey(msg.key)` unconditionally, so an acknowledgment carrying
a different key observably changes the state. -/
theorem c5_counterexample :
    onMessage Status.Idle (ClientMsg.uploadInfo "k2") readyState ≠ readyState ∧
    (onMessage Status.Idle (ClientMsg.uploadInfo "k2") readyState).uploadKey
      ≠ readyState.uploadKey := by
  constructor <;> decide

/-- Claim C5 (amended): a second session-ready acknowledgment received while
the `sessionReady` flag is set re-triggers no readiness side effect — the
promise is not resolved again and the status does not change — but the
upload key is unconditionally overwritten with the message's key, so the
transition is observably idempotent exactly when the acknowledgment carries
the key already held. -/
theorem c5_ready_idempotent_amended (captured : Status) (s : ClientState) (k : String)
    (h : s.sessionReady = true) :
    onMessage captured (ClientMsg.uploadInfo k) s = { s with uploadKey := some k } ∧
    (onMessage captured (ClientMsg.uploadInfo k) s).resolveCount = s.resolveCount ∧
    (onMessage captured (ClientMsg.uploadInfo k) s).status = s.status ∧
    (s.uploadKey = some k → onMessage captured (ClientMsg.uploadInfo k) s = s) := by
  have h1 : onMessage captured (ClientMsg.uploadInfo k) s
      = { s with uploadKey := some k } := by
    unfold onMessage
    simp [h]
  refine ⟨h1, by rw [h1], by rw [h1], ?_⟩
  intro hk
  rw [h1, ← hk]

/-- Claim C5 witness: the amended statement evaluated at a concrete Ready
state, for a repeated acknowledgment with the held key and with a fresh key. -/
theorem c5_ready_idempotent_amended_witness :
    onMessage Status.Idle (ClientMsg.uploadInfo "k1") readyState = readyState ∧
    (onMessage Status.Idle (ClientMsg.uploadInfo "k2") readyState).resolveCount
      = readyState.resolveCount := by
  refine ⟨(c5_ready_idempotent_amended Status.Idle readyState "k1" rfl).2.2.2 rfl,
          (c5_ready_idempotent_amended Status.Idle readyState "k2" rfl).2.1⟩

/-- Claim C7 (code bug): the guard `if (status !== 'Recording') setStatus('Error')`
in the `error` case at `src/App.js:117` reads the `status` value closed
over when `startConnection` defined the handler — a render in which
`canConnect` held, so the captured value is `Idle`, `Error` or `Completed`
and never `Recording`.  The guard therefore always fires: an error
acknowledgment sets the producer status to `Error` in every phase,
including while the producer is actually Recording, contradicting the
claim's Recording exemption (which is the line's evident intent). -/
theorem c7_stale_status_error (captured : Status) (s : ClientState) (msg : String)
    (hcap : canConnect captured = true) :
    onMessage captured (ClientMsg.error msg) s
      = { s with errorMsg := some msg, status := Status.Error } ∧
    (s.status = Status.Recording →
      (onMessage captured (ClientMsg.error msg) s).status = Status.Error) := by
  have hne : ¬ captured = Status.Recording := by
    cases captured <;> simp [canConnect] at hcap ⊢
  have h1 : onMessage captured (ClientMsg.error msg) s
      = { s with errorMsg := some msg, status := Status.Error } := by
    simp only [onMessage]
    rw [if_neg hne]
  exact ⟨h1, fun _ => by rw [h1]⟩

/-- Claim C7 witness: a handler captured from an `Idle` render receives an
error acknowledgment while the producer is Recording, and the producer
moves to `Error`. -/
theorem c7_stale_status_error_witness :
    onMessage Status.Idle (ClientMsg.error "boom")
      { readyState with status := Status.Recording }
      = { { readyState with status := Status.Recording } with
          errorMsg := some "boom", status := Status.Error } :=
  (c7_stale_status_error Status.Idle
    { readyState with status := Status.Recording } "boom" (by decide)).1

/-! ### Producer send loop (`src/App.js`, `ondataavailable`) -/

/-- Observable actions the `recorder.ondataavailable` send loop in
`src/App.js` can perform: transmit a piece over the socket (with the
accompanying `setBytesSent` update), emit the `console.warn` for a socket
found closed mid-send, or mutate the error-surfacing producer state
(`setStatus('Error')` / `setErrorMsg`) — the latter two never occur in the
loop body but are part of the action vocabulary so their absence is a
statement about the code, not about the model. -/
inductive SendAct where
  | sent (size : Nat)
  | warnClosedMidSend
  | setStatusError
  | setErrorMsgAct
deriving DecidableEq, Repr

/-- Transcription of the per-frame send loop
`for (const c of chunks) { ...backpressure...; if (open) { send; setBytesSent } else { console.warn; break } }`
from `src/App.js`.  `openAt i` is whether `wsRef.current` exists and its
`readyState` is `OPEN` when the `i`-th piece's post-backpressure check runs
(the backpressure wait itself only delays the check and is not modelled as
an action).  Returns the list of actions the loop performs. -/
def sendFrameChunks (openAt : Nat → Bool) : List Nat → Nat → List SendAct
  | [], _ => []
  | c :: cs, i =>
    if openAt i then SendAct.sent c :: sendFrameChunks openAt cs (i + 1)
    else [SendAct.warnClosedMidSend]

/-- Claim C6 counterexample: with the channel open for the first piece and
closed from the second check on, the loop sends the first piece, emits only
the `console.warn`, and abandons the rest — it never raises any
transport-unavailable condition to the caller: no status change to `Error`,
no error message, nothing thrown from the handler. -/
theorem c6_counterexample :
    sendFrameChunks (fun i => i == 0) [100, 200, 300] 0
      = [SendAct.sent 100, SendAct.warnClosedMidSend] ∧
    SendAct.setStatusError ∉ sendFrameChunks (fun i => i == 0) [100, 200, 300] 0 ∧
    SendAct.setErrorMsgAct ∉ sendFrameChunks (fun i => i == 0) [100, 200, 300] 0 := by
  refine ⟨rfl, by decide, by decide⟩

theorem sendFrameChunks_no_error (openAt : Nat → Bool) :
    ∀ (chunks : List Nat) (i : Nat) (a : SendAct), a ∈ sendFrameChunks openAt chunks i →
      a ≠ SendAct.setStatusError ∧ a ≠ SendAct.setErrorMsgAct := by
  intro chunks
  induction chunks with
  | nil => intro i a ha; simp [sendFrameChunks] at ha
  | cons c cs ih =>
    intro i a ha
    rw [sendFrameChunks] at ha
    by_cases h : openAt i
    · rw [if_pos h] at ha
      rcases List.mem_cons.mp ha with ha | ha
      · subst ha; exact ⟨by simp, by simp⟩
      · exact ih (i + 1) a ha
    · rw [if_neg h] at ha
      rcases List.mem_cons.mp ha with ha | ha
      · subst ha; exact ⟨by simp, by simp⟩
      · simp at ha

/-- Claim C6 (amended): if the channel is open for the first `k` piece checks
of a frame and not open at check `k` (with pieces still remaining), the send
loop transmits exactly the first `k` pieces, emits the `console.warn`, and
abandons all remaining pieces of the frame without retrying; it raises no
error condition to the caller — the producer's error status and error
message are untouched, and the only surfacing of the loss is the console
warning. -/
theorem c6_abandon_on_closed_amended (openAt : Nat → Bool) (chunks : List Nat)
    (i k : Nat) (hopen : ∀ j, j < k → openAt (i + j) = true)
    (hclosed : openAt (i + k) = false) (hk : k < chunks.length) :
    sendFrameChunks openAt chunks i
      = (chunks.take k).map SendAct.sent ++ [SendAct.warnClosedMidSend] ∧
    ∀ a ∈ sendFrameChunks openAt chunks i,
      a ≠ SendAct.setStatusError ∧ a ≠ SendAct.setErrorMsgAct := by
  refine ⟨?_, fun a ha => sendFrameChunks_no_error openAt chunks i a ha⟩
  induction k generalizing chunks i with
  | zero =>
    cases chunks with
    | nil => simp at hk
    | cons c cs =>
      rw [sendFrameChunks, if_neg (by simpa using hclosed)]
      simp
  | succ k ih =>
    cases chunks with
    | nil => simp at hk
    | cons c cs =>
      have h0 : openAt i = true := by simpa using hopen 0 (by omega)
      rw [sendFrameChunks, if_pos h0]
      have hrec := ih cs (i + 1)
        (fun j hj => by
          have := hopen (j + 1) (by omega)
          simpa [Nat.add_assoc, Nat.add_comm 1 j] using this)
        (by simpa [Nat.add_assoc, Nat.add_comm 1 k] using hclosed)
        (by simpa using hk)
      rw [hrec]
      simp

/-- Claim C6 witness: the amended statement at a concrete frame of three
pieces whose channel closes after the first piece. -/
theorem c6_abandon_on_closed_amended_witness :
    sendFrameChunks (fun i => i == 0) [10, 20, 30] 0
      = [SendAct.sent 10, SendAct.warnClosedMidSend] := by
  have h := c6_abandon_on_closed_amended (fun i => i == 0) [10, 20, 30] 0 1
    (by decide) (by decide) (by decide)
  simpa using h.1

/-! ### UploadAggregator (`src/server.mjs`) -/

/-- `MIN_PART_SIZE` from `src/server.mjs`: minimum multipart part size (5 MiB). -/
def MIN_PART_SIZE : Nat := 5 * 1024 * 1024

/-- `TARGET_PART_SIZE` from `src/server.mjs`: aggregation threshold before a
part is flushed (6 MiB). -/
def TARGET_PART_SIZE : Nat := 6 * 1024 * 1024

/-- A committed multipart part as recorded in `session.parts` in
`src/server.mjs`: its part number and the byte length of the uploaded body
(the `ETag` is an opaque token and is not modelled). -/
structure SrvPart where
  PartNumber : Nat
  size : Nat
deriving DecidableEq, Repr

/-- The per-connection session state of `src/server.mjs`: `key` is tracked
as the boolean `hasKey` (its value is an opaque fresh string), `session`
holds the committed parts list once multipart has started, and the
aggregation buffer `aggBuffers` keeps the byte length of each buffered
binary frame with `aggBytes` their running total, exactly as in the source.
`totalReceivedBytes` mirrors the cumulative counter (never reset). -/
structure SrvState where
  hasKey : Bool
  session : Option (List SrvPart)
  partNumber : Nat
  aggBuffers : List Nat
  aggBytes : Nat
  totalReceivedBytes : Nat
  usingMultipart : Bool
deriving DecidableEq, Repr

/-- The initial per-connection state set up in the `wss.on('connection')`
handler of `src/server.mjs`. -/
def initState : SrvState :=
  { hasKey := false, session := none, partNumber := 0, aggBuffers := [],
    aggBytes := 0, totalReceivedBytes := 0, usingMultipart := false }

/-- Observable actions of the server: the S3 commands it issues and the JSON
control messages it sends back over the socket. -/
inductive SrvEff where
  | createMultipart
  | uploadPart (partNumber size : Nat)
  | completeMultipart (parts : List SrvPart)
  | putObject (size : Nat)
  | msgUploadInfo
  | msgPartAck (partNumber size : Nat)
  | msgCompleted
  | msgError
deriving DecidableEq, Repr

/-- Transcription of `startMultipart` from `src/server.mjs`: guarded by
`if (usingMultipart) return`, it issues `CreateMultipartUploadCommand` —
which may throw (`createFails`).  Only after the awaited call returns does
it set `session = { key, uploadId, parts: [] }` and `usingMultipart = true`
and send the `uploadInfo` acknowledgment; a thrown call leaves all of that
undone, the exception propagating to the caller.  The result is the new
state, the store calls and messages issued, and whether the call threw. -/
def startMultipart (createFails : Bool) (s : SrvState) : SrvState × List SrvEff × Bool :=
  if s.usingMultipart then (s, [], false)
  else if createFails then (s, [SrvEff.createMultipart], true)
  else ({ s with session := some [], usingMultipart := true },
        [SrvEff.createMultipart, SrvEff.msgUploadInfo], false)

/-- Transcription of `flushPart(isFinal)` from `src/server.mjs`: bail out if
no multipart session, if the buffer is empty, or if a non-final flush has
fewer than `MIN_PART_SIZE` bytes.  Otherwise the source increments
`partNumber` and clears the buffer before awaiting `UploadPartCommand` (a
body of exactly `aggBytes` bytes, per `Buffer.concat(aggBuffers, aggBytes)`);
if that call throws (`uploadFails`), the counter stays advanced and the
buffer cleared but no part is recorded and no `partAck` is sent; on success
the part is pushed onto `session.parts` and the `partAck` sent. -/
def flushPart (isFinal uploadFails : Bool) (s : SrvState) : SrvState × List SrvEff × Bool :=
  if s.usingMultipart = false ∨ s.session = none then (s, [], false)
  else if s.aggBytes = 0 then (s, [], false)
  else if isFinal = false ∧ s.aggBytes < MIN_PART_SIZE then (s, [], false)
  else
    let pn := s.partNumber + 1
    let bodySize := s.aggBytes
    let s1 := { s with partNumber := pn, aggBuffers := [], aggBytes := 0 }
    if uploadFails then (s1, [SrvEff.uploadPart pn bodySize], true)
    else
      let parts := s.session.getD []
      ({ s1 with session := some (parts ++ [{ PartNumber := pn, size := bodySize }]) },
       [SrvEff.uploadPart pn bodySize, SrvEff.msgPartAck pn bodySize], false)

/-- Stable insertion of a part into a list sorted by ascending `PartNumber`. -/
def insertPart (p : SrvPart) : List SrvPart → List SrvPart
  | [] => [p]
  | q :: qs =>
    if p.PartNumber ≤ q.PartNumber then p :: q :: qs else q :: insertPart p qs

/-- The `session.parts.sort((a, b) => a.PartNumber - b.PartNumber)` call from
`completeUpload` in `src/server.mjs`, modelled as insertion sort by
ascending `PartNumber`. -/
def sortParts : List SrvPart → List SrvPart
  | [] => []
  | p :: ps => insertPart p (sortParts ps)

/-- Transcription of `completeUpload` from `src/server.mjs`: when multipart
was never started, a single `PutObjectCommand` of the accumulated bytes;
otherwise a final `flushPart(true)`, a sort of `session.parts` by part
number, and a `CompleteMultipartUploadCommand` carrying the full part list,
followed by the `completed` acknowledgment.  `fails = true` means the first
remote-store call this run performs throws; calls issued and mutations made
before that point stand, and everything after it is skipped. -/
def completeUpload (fails : Bool) (s : SrvState) : SrvState × List SrvEff × Bool :=
  if s.usingMultipart = false then
    if fails then (s, [SrvEff.putObject s.aggBytes], true)
    else (s, [SrvEff.putObject s.aggBytes, SrvEff.msgCompleted], false)
  else
    let r := flushPart true fails s
    if r.2.2 then (r.1, r.2.1, true)
    else
      let sorted := sortParts (r.1.session.getD [])
      let s2 := { r.1 with session := some sorted }
      if fails then (s2, r.2.1 ++ [SrvEff.completeMultipart sorted], true)
      else (s2, r.2.1 ++ [SrvEff.completeMultipart sorted, SrvEff.msgCompleted], false)

/-- Transcription of the `msg.type === 'start'` branch of the message handler
in `src/server.mjs`: a start while `key` is set is rejected with an error
message; otherwise a fresh key is assigned and the deferred `uploadInfo`
acknowledgment is sent. -/
def handleStart (s : SrvState) : SrvState × List SrvEff :=
  if s.hasKey then (s, [SrvEff.msgError])
  else ({ s with hasKey := true }, [SrvEff.msgUploadInfo])

/-- Transcription of the `msg.type === 'stop'` branch of the message handler
in `src/server.mjs`.  `fails = true` models the first remote call performed
by `completeUpload` throwing, in which case the `catch` sends the error
acknowledgment; either way the `finally` block resets `session`, `key`,
`partNumber`, `aggBuffers`, `aggBytes` and `usingMultipart` together
(`totalReceivedBytes` is not reset). -/
def handleStop (fails : Bool) (s : SrvState) : SrvState × List SrvEff :=
  if s.hasKey = false then (s, [SrvEff.msgError])
  else
    let r := completeUpload fails s
    ({ r.1 with session := none, hasKey := false, partNumber := 0,
                aggBuffers := [], aggBytes := 0, usingMultipart := false },
     if r.2.2 then r.2.1 ++ [SrvEff.msgError] else r.2.1)

/-- The buffering step of the binary branch in `src/server.mjs`:
`aggBuffers.push(data); aggBytes += data.length; totalReceivedBytes += data.length`. -/
def appendFrame (size : Nat) (s : SrvState) : SrvState :=
  { s with aggBuffers := s.aggBuffers ++ [size],
           aggBytes := s.aggBytes + size,
           totalReceivedBytes := s.totalReceivedBytes + size }

/-- The guard `if (!usingMultipart && aggBytes >= MIN_PART_SIZE) await startMultipart()`
of the binary branch in `src/server.mjs`. -/
def maybeStart (createFails : Bool) (s : SrvState) : SrvState × List SrvEff × Bool :=
  if s.usingMultipart = false ∧ MIN_PART_SIZE ≤ s.aggBytes
  then startMultipart createFails s else (s, [], false)

/-- The guard `if (usingMultipart && aggBytes >= TARGET_PART_SIZE) await flushPart(false)`
of the binary branch in `src/server.mjs`. -/
def maybeFlush (uploadFails : Bool) (s : SrvState) : SrvState × List SrvEff × Bool :=
  if s.usingMultipart = true ∧ TARGET_PART_SIZE ≤ s.aggBytes
  then flushPart false uploadFails s else (s, [], false)

/-- Transcription of the binary branch of the message handler in
`src/server.mjs`: reject if no key; otherwise buffer the frame's bytes, and
— on the updated `aggBytes` — start multipart once `MIN_PART_SIZE` is
reached, then flush a part once `TARGET_PART_SIZE` is reached.  A throw
from either store call propagates to the surrounding `catch`, which sends
the error acknowledgment and skips the rest of the branch. -/
def handleBinary (size : Nat) (createFails uploadFails : Bool) (s : SrvState) :
    SrvState × List SrvEff :=
  if s.hasKey = false then (s, [SrvEff.msgError])
  else
    let r2 := maybeStart createFails (appendFrame size s)
    if r2.2.2 then (r2.1, r2.2.1 ++ [SrvEff.msgError])
    else
      let r3 := maybeFlush uploadFails r2.1
      if r3.2.2 then (r3.1, r2.2.1 ++ r3.2.1 ++ [SrvEff.msgError])
      else (r3.1, r2.2.1 ++ r3.2.1)

/-- The events a connection can deliver to the server's message handler: a
`start` control message, a binary frame of a given byte length together with
whether a `CreateMultipartUploadCommand` or `UploadPartCommand` issued while
processing it throws, and a `stop` control message (with whether the first
remote call of the finalize throws). -/
inductive SrvEvent where
  | start
  | binary (size : Nat) (createFails uploadFails : Bool)
  | stop (fails : Bool)
deriving DecidableEq, Repr

/-- Whether an event carries no store-call failure. -/
def SrvEvent.noFail : SrvEvent → Bool
  | SrvEvent.start => true
  | SrvEvent.binary _ cf uf => !cf && !uf
  | SrvEvent.stop f => !f

/-- Whether an event is a binary frame. -/
def SrvEvent.isBinary : SrvEvent → Bool
  | SrvEvent.binary _ _ _ => true
  | _ => false

/-- Dispatch of one incoming message, as in `ws.on('message')` of
`src/server.mjs`. -/
def srvStep : SrvEvent → SrvState → SrvState × List SrvEff
  | SrvEvent.start, s => handleStart s
  | SrvEvent.binary n cf uf, s => handleBinary n cf uf s
  | SrvEvent.stop f, s => handleStop f s

/-- Run a sequence of events from a given state, accumulating the actions
performed, in order. -/
def runFrom (s : SrvState) : List SrvEvent → SrvState × List SrvEff
  | [] => (s, [])
  | e :: es =>
    let r1 := srvStep e s
    let r2 := runFrom r1.1 es
    (r2.1, r1.2 ++ r2.2)

/-- Run a sequence of events on a fresh connection. -/
def srvRun (events : List SrvEvent) : SrvState × List SrvEff :=
  runFrom initState events

/-- Claim C2 counterexample: after the aggregator receives 2 frames of 2 MiB
(2097152 bytes) each, the aggregate is 4 MiB, which is below the 5 MiB
`MIN_PART_SIZE` threshold — multipart mode has not begun and no
begin-multipart call has been issued, contradicting the claim that the
threshold is crossed on frame 2. -/
theorem c2_counterexample :
    (srvRun [SrvEvent.start, SrvEvent.binary 2097152 false false,
             SrvEvent.binary 2097152 false false]).1.usingMultipart = false ∧
    (srvRun [SrvEvent.start, SrvEvent.binary 2097152 false false,
             SrvEvent.binary 2097152 false false]).1.aggBytes < MIN_PART_SIZE ∧
    SrvEff.createMultipart ∉
      (srvRun [SrvEvent.start, SrvEvent.binary 2097152 false false,
               SrvEvent.binary 2097152 false false]).2 := by
  refine ⟨rfl, by decide, by decide⟩

/-- Claim C2 (amended): with 3 frames of 2 MiB each, the 5 MiB
`MIN_PART_SIZE` threshold is first reached on frame 3 (aggregate 6 MiB), not
frame 2 (aggregate 4 MiB); multipart mode then begins and, the 6 MiB
aggregate having reached the 6 MiB `TARGET_PART_SIZE`, exactly one part of
size 6 MiB is committed; a subsequent finalize with 0 buffered bytes commits
no further part and completes the multipart upload with exactly 1 part. -/
theorem c2_scenario_a_amended :
    (srvRun [SrvEvent.start, SrvEvent.binary 2097152 false false,
             SrvEvent.binary 2097152 false false]).1.usingMultipart = false ∧
    (srvRun [SrvEvent.start, SrvEvent.binary 2097152 false false, SrvEvent.binary 2097152 false false,
             SrvEvent.binary 2097152 false false]).1
      = { hasKey := true, session := some [{ PartNumber := 1, size := 6291456 }],
          partNumber := 1, aggBuffers := [], aggBytes := 0,
          totalReceivedBytes := 6291456, usingMultipart := true } ∧
    (srvRun [SrvEvent.start, SrvEvent.binary 2097152 false false, SrvEvent.binary 2097152 false false,
             SrvEvent.binary 2097152 false false, SrvEvent.stop false]).2
      = [SrvEff.msgUploadInfo, SrvEff.createMultipart, SrvEff.msgUploadInfo,
         SrvEff.uploadPart 1 6291456, SrvEff.msgPartAck 1 6291456,
         SrvEff.completeMultipart [{ PartNumber := 1, size := 6291456 }],
         SrvEff.msgCompleted] := by
  refine ⟨rfl, by decide, by decide⟩


/-! ### Session invariants (`src/server.mjs`) -/

/-- The committed parts carry strictly increasing part numbers. -/
def partsMono (parts : List SrvPart) : Prop :=
  ∀ i j (hi : i < parts.length) (hj : j < parts.length), i < j →
    (parts.get ⟨i, hi⟩).PartNumber < (parts.get ⟨j, hj⟩).PartNumber

/-- Every part number in the list is at most `n`. -/
def partsBounded (n : Nat) (parts : List SrvPart) : Prop :=
  ∀ p ∈ parts, p.PartNumber ≤ n

/-- Every committed part in the list meets the minimum part size. -/
def allMin (parts : List SrvPart) : Prop :=
  ∀ p ∈ parts, MIN_PART_SIZE ≤ p.size

/-- The committed parts carry the part numbers `1, 2, ...` in order. -/
def partsNumbered (parts : List SrvPart) : Prop :=
  ∀ i (h : i < parts.length), (parts.get ⟨i, h⟩).PartNumber = i + 1

/-- The state invariant holding on every reachable server state, store
failures included: `usingMultipart` tracks whether a session object exists,
and an active session's parts have strictly increasing part numbers, all
bounded by `partNumber`, each of size at least `MIN_PART_SIZE`. -/
def SrvInv (s : SrvState) : Prop :=
  s.usingMultipart = s.session.isSome ∧
  ∀ parts, s.session = some parts →
    partsMono parts ∧ partsBounded s.partNumber parts ∧ allMin parts

/-- The additional exact-numbering invariant holding along failure-free
runs: an active session's parts are numbered `1..n` with `partNumber = n`,
and with no session the part counter is zero. -/
def SrvInvX (s : SrvState) : Prop :=
  (∀ parts, s.session = some parts →
     partsNumbered parts ∧ s.partNumber = parts.length) ∧
  (s.session = none → s.partNumber = 0)

/-- Soundness of an emitted action, store failures included: committed parts
are nonempty, and a part list given to complete-multipart-upload has
strictly increasing part numbers with all but possibly the last part at
least `MIN_PART_SIZE`. -/
def EffGood : SrvEff → Prop
  | SrvEff.uploadPart _ size => 0 < size
  | SrvEff.msgPartAck _ size => 0 < size
  | SrvEff.completeMultipart parts =>
      partsMono parts ∧
      ∀ i (h : i < parts.length), i + 1 < parts.length →
        MIN_PART_SIZE ≤ (parts.get ⟨i, h⟩).size
  | _ => True

/-- Along failure-free runs, a part list given to complete-multipart-upload
is numbered `1..n`. -/
def EffGoodX : SrvEff → Prop
  | SrvEff.completeMultipart parts => partsNumbered parts
  | _ => True

theorem inv_initState : SrvInv initState := by
  refine ⟨rfl, ?_⟩
  intro parts hparts
  simp [initState] at hparts

theorem invX_initState : SrvInvX initState := by
  refine ⟨?_, fun _ => rfl⟩
  intro parts hparts
  simp [initState] at hparts

theorem partsNumbered_append (parts : List SrvPart) (sz : Nat)
    (hp : partsNumbered parts) :
    partsNumbered (parts ++ [{ PartNumber := parts.length + 1, size := sz }]) := by
  intro i h
  simp only [List.get_eq_getElem]
  have hlen : i < parts.length + 1 := by
    simpa using h
  rcases lt_or_ge i parts.length with hi | hi
  · rw [List.getElem_append_left hi]
    simpa [List.get_eq_getElem] using hp i hi
  · have hieq : i = parts.length := by omega
    subst hieq
    rw [List.getElem_append_right (le_refl _)]
    simp

theorem partsNumbered_pairwise (parts : List SrvPart) (hp : partsNumbered parts) :
    parts.Pairwise (fun a b => a.PartNumber ≤ b.PartNumber) := by
  rw [List.pairwise_iff_getElem]
  intro i j hi hj hij
  have h1 := hp i hi
  have h2 := hp j hj
  simp only [List.get_eq_getElem] at h1 h2
  rw [h1, h2]
  omega

theorem partsMono_pairwise (parts : List SrvPart) (hp : partsMono parts) :
    parts.Pairwise (fun a b => a.PartNumber ≤ b.PartNumber) := by
  rw [List.pairwise_iff_getElem]
  intro i j hi hj hij
  have := hp i j hi hj hij
  simp only [List.get_eq_getElem] at this
  omega

theorem partsMono_append (parts : List SrvPart) (n sz : Nat)
    (hmono : partsMono parts) (hb : partsBounded n parts) :
    partsMono (parts ++ [{ PartNumber := n + 1, size := sz }]) ∧
    partsBounded (n + 1) (parts ++ [{ PartNumber := n + 1, size := sz }]) := by
  constructor
  · intro i j hi hj hij
    simp only [List.get_eq_getElem]
    have hjlen : j < parts.length + 1 := by simpa using hj
    rcases lt_or_ge j parts.length with hjp | hjp
    · rw [List.getElem_append_left (by omega : i < parts.length),
          List.getElem_append_left hjp]
      have := hmono i j (by omega) hjp hij
      simpa [List.get_eq_getElem] using this
    · have hjeq : j = parts.length := by omega
      subst hjeq
      rw [List.getElem_append_right (le_refl _),
          List.getElem_append_left (by omega : i < parts.length)]
      have := hb parts[i] (List.getElem_mem (by omega))
      simp only [Nat.sub_self, List.getElem_cons_zero]
      omega
  · intro p hp
    rcases List.mem_append.mp hp with hp | hp
    · exact le_trans (hb p hp) (by omega)
    · simp at hp
      subst hp
      simp

theorem insertPart_of_le (p q : SrvPart) (qs : List SrvPart)
    (h : p.PartNumber ≤ q.PartNumber) :
    insertPart p (q :: qs) = p :: q :: qs := by
  rw [insertPart, if_pos h]

theorem sortParts_eq_self (l : List SrvPart)
    (h : l.Pairwise (fun a b => a.PartNumber ≤ b.PartNumber)) :
    sortParts l = l := by
  induction l with
  | nil => rfl
  | cons p ps ih =>
    rw [sortParts, ih (List.pairwise_cons.mp h).2]
    cases ps with
    | nil => rfl
    | cons q qs =>
      exact insertPart_of_le p q qs ((List.pairwise_cons.mp h).1 q (by simp))

theorem flushPart_skip (b uf : Bool) (s : SrvState)
    (h : s.usingMultipart = false ∨ s.session = none ∨ s.aggBytes = 0 ∨
         (b = false ∧ s.aggBytes < MIN_PART_SIZE)) :
    flushPart b uf s = (s, [], false) := by
  unfold flushPart
  rcases h with h | h | h | h
  · rw [if_pos (Or.inl h)]
  · rw [if_pos (Or.inr h)]
  · by_cases h1 : s.usingMultipart = false ∨ s.session = none
    · rw [if_pos h1]
    · rw [if_neg h1, if_pos h]
  · by_cases h1 : s.usingMultipart = false ∨ s.session = none
    · rw [if_pos h1]
    · by_cases h2 : s.aggBytes = 0
      · rw [if_neg h1, if_pos h2]
      · rw [if_neg h1, if_neg h2, if_pos h]

theorem flushPart_commit (b : Bool) (s : SrvState) (parts : List SrvPart)
    (h1 : s.usingMultipart = true) (h2 : s.session = some parts)
    (h3 : s.aggBytes ≠ 0) (h4 : b = true ∨ MIN_PART_SIZE ≤ s.aggBytes) :
    flushPart b false s =
      ({ s with partNumber := s.partNumber + 1, aggBuffers := [], aggBytes := 0,
                session := some (parts ++
                  [{ PartNumber := s.partNumber + 1, size := s.aggBytes }]) },
       [SrvEff.uploadPart (s.partNumber + 1) s.aggBytes,
        SrvEff.msgPartAck (s.partNumber + 1) s.aggBytes], false) := by
  unfold flushPart
  rw [if_neg (by simp [h1, h2]), if_neg h3,
      if_neg (by
        intro hc
        rcases h4 with h4 | h4
        · rw [h4] at hc
          simp at hc
        · omega)]
  dsimp only
  rw [if_neg (by simp), h2]
  rfl

theorem flushPart_throw (b : Bool) (s : SrvState)
    (h1 : s.usingMultipart = true) (h2 : s.session ≠ none)
    (h3 : s.aggBytes ≠ 0) (h4 : b = true ∨ MIN_PART_SIZE ≤ s.aggBytes) :
    flushPart b true s =
      ({ s with partNumber := s.partNumber + 1, aggBuffers := [], aggBytes := 0 },
       [SrvEff.uploadPart (s.partNumber + 1) s.aggBytes], true) := by
  unfold flushPart
  rw [if_neg (by simp [h1, h2]), if_neg h3,
      if_neg (by
        intro hc
        rcases h4 with h4 | h4
        · rw [h4] at hc
          simp at hc
        · omega)]
  dsimp only
  rw [if_pos rfl]

theorem flushPart_noThrow (b : Bool) (s : SrvState) :
    (flushPart b false s).2.2 = false := by
  unfold flushPart
  split
  · rfl
  · split
    · rfl
    · split
      · rfl
      · dsimp only
        rw [if_neg (by simp)]

theorem flushPart_keeps_multipart (b uf : Bool) (s : SrvState) :
    (flushPart b uf s).1.usingMultipart = s.usingMultipart ∧
    SrvEff.createMultipart ∉ (flushPart b uf s).2.1 := by
  unfold flushPart
  split
  · exact ⟨rfl, by simp⟩
  · split
    · exact ⟨rfl, by simp⟩
    · split
      · exact ⟨rfl, by simp⟩
      · dsimp only
        cases uf with
        | true => rw [if_pos rfl]; exact ⟨rfl, by simp⟩
        | false => rw [if_neg (by simp)]; exact ⟨rfl, by simp⟩

theorem flushPart_no_complete (b uf : Bool) (s : SrvState) (parts : List SrvPart) :
    SrvEff.completeMultipart parts ∉ (flushPart b uf s).2.1 := by
  unfold flushPart
  split
  · simp
  · split
    · simp
    · split
      · simp
      · dsimp only
        cases uf with
        | true => rw [if_pos rfl]; simp
        | false => rw [if_neg (by simp)]; simp

theorem startMultipart_noThrow (s : SrvState) :
    (startMultipart false s).2.2 = false := by
  unfold startMultipart
  by_cases h : s.usingMultipart = true
  · rw [if_pos h]
  · rw [if_neg h, if_neg (by simp)]

theorem startMultipart_no_complete (cf : Bool) (s : SrvState) (parts : List SrvPart) :
    SrvEff.completeMultipart parts ∉ (startMultipart cf s).2.1 := by
  unfold startMultipart
  split
  · simp
  · split
    · simp
    · simp

theorem effGood_completeMultipart (parts : List SrvPart)
    (hmono : partsMono parts) (hminp : allMin parts) :
    EffGood (SrvEff.completeMultipart parts) := by
  refine ⟨hmono, ?_⟩
  intro i h _
  simp only [List.get_eq_getElem]
  exact hminp parts[i] (List.getElem_mem h)

theorem effGood_completeMultipart_append (parts : List SrvPart) (n sz : Nat)
    (hmono : partsMono parts) (hb : partsBounded n parts) (hminp : allMin parts) :
    EffGood (SrvEff.completeMultipart
      (parts ++ [{ PartNumber := n + 1, size := sz }])) := by
  refine ⟨(partsMono_append parts n sz hmono hb).1, ?_⟩
  intro i h hlast
  have hi : i < parts.length := by
    simp only [List.length_append, List.length_cons, List.length_nil] at hlast
    omega
  simp only [List.get_eq_getElem, List.getElem_append_left hi]
  exact hminp parts[i] (List.getElem_mem hi)

theorem flushPart_false_inv (uf : Bool) (s : SrvState) (hs : SrvInv s) :
    SrvInv (flushPart false uf s).1 ∧ ∀ f ∈ (flushPart false uf s).2.1, EffGood f := by
  by_cases h1 : s.usingMultipart = false ∨ s.session = none ∨ s.aggBytes = 0 ∨
      ((false : Bool) = false ∧ s.aggBytes < MIN_PART_SIZE)
  · rw [flushPart_skip false uf s h1]
    exact ⟨hs, by simp⟩
  · push_neg at h1
    obtain ⟨hm, hsess, hagg, hmin⟩ := h1
    have hm' : s.usingMultipart = true := by
      revert hm; cases s.usingMultipart <;> simp
    obtain ⟨parts, hparts⟩ := Option.ne_none_iff_exists'.mp hsess
    have hmin' : MIN_PART_SIZE ≤ s.aggBytes := by
      have := hmin rfl; omega
    obtain ⟨hs1, hs2⟩ := hs
    obtain ⟨hmono, hbnd, hminp⟩ := hs2 parts hparts
    cases uf with
    | true =>
      rw [flushPart_throw false s hm' hsess hagg (Or.inr hmin')]
      dsimp only
      refine ⟨⟨hs1, ?_⟩, ?_⟩
      · intro parts' hp'
        obtain ⟨ha, hb, hc⟩ := hs2 parts' hp'
        exact ⟨ha, fun p hp => le_trans (hb p hp)
          (by show s.partNumber ≤ s.partNumber + 1; omega), hc⟩
      · intro f hf
        simp at hf
        subst hf
        simp only [EffGood]
        omega
    | false =>
      rw [flushPart_commit false s parts hm' hparts hagg (Or.inr hmin')]
      obtain ⟨hmono2, hbnd2⟩ := partsMono_append parts s.partNumber s.aggBytes hmono hbnd
      refine ⟨⟨by simp [hm'], ?_⟩, ?_⟩
      · intro parts' hp'
        have hp'' : parts ++ [{ PartNumber := s.partNumber + 1, size := s.aggBytes }]
            = parts' := by simpa using hp'
        subst hp''
        refine ⟨hmono2, hbnd2, ?_⟩
        intro p hp
        rcases List.mem_append.mp hp with hp | hp
        · exact hminp p hp
        · simp at hp
          subst hp
          exact hmin'
      · intro f hf
        simp at hf
        rcases hf with hf | hf <;> subst hf <;> (simp only [EffGood]; omega)

theorem startMultipart_inv (cf : Bool) (s : SrvState) (hs : SrvInv s)
    (h : s.usingMultipart = false) :
    SrvInv (startMultipart cf s).1 ∧ ∀ f ∈ (startMultipart cf s).2.1, EffGood f := by
  unfold startMultipart
  rw [if_neg (by simp [h])]
  cases cf with
  | true =>
    rw [if_pos rfl]
    exact ⟨hs, by simp [EffGood]⟩
  | false =>
    rw [if_neg (by simp)]
    refine ⟨⟨by simp, ?_⟩, by simp [EffGood]⟩
    intro parts hp
    have hp' : ([] : List SrvPart) = parts := by simpa using hp
    subst hp'
    refine ⟨?_, fun p hp => by simp at hp, fun p hp => by simp at hp⟩
    intro i j hi hj hij
    simp at hi

theorem maybeStart_inv (cf : Bool) (s : SrvState) (hs : SrvInv s) :
    SrvInv (maybeStart cf s).1 ∧ ∀ f ∈ (maybeStart cf s).2.1, EffGood f := by
  unfold maybeStart
  by_cases h : s.usingMultipart = false ∧ MIN_PART_SIZE ≤ s.aggBytes
  · rw [if_pos h]
    exact startMultipart_inv cf s hs h.1
  · rw [if_neg h]
    exact ⟨hs, by simp⟩

theorem maybeFlush_inv (uf : Bool) (s : SrvState) (hs : SrvInv s) :
    SrvInv (maybeFlush uf s).1 ∧ ∀ f ∈ (maybeFlush uf s).2.1, EffGood f := by
  unfold maybeFlush
  by_cases h : s.usingMultipart = true ∧ TARGET_PART_SIZE ≤ s.aggBytes
  · rw [if_pos h]
    exact flushPart_false_inv uf s hs
  · rw [if_neg h]
    exact ⟨hs, by simp⟩

theorem handleBinary_inv (n : Nat) (cf uf : Bool) (s : SrvState) (hs : SrvInv s) :
    SrvInv (handleBinary n cf uf s).1 ∧ ∀ f ∈ (handleBinary n cf uf s).2, EffGood f := by
  unfold handleBinary
  by_cases hk : s.hasKey = false
  · rw [if_pos hk]
    exact ⟨hs, by simp [EffGood]⟩
  · rw [if_neg hk]
    dsimp only
    have hs1 : SrvInv (appendFrame n s) := hs
    obtain ⟨h2a, h2b⟩ := maybeStart_inv cf (appendFrame n s) hs1
    by_cases ht2 : (maybeStart cf (appendFrame n s)).2.2 = true
    · rw [if_pos ht2]
      refine ⟨h2a, ?_⟩
      intro f hf
      simp only [List.mem_append, List.mem_cons, List.not_mem_nil, or_false] at hf
      rcases hf with hf | hf
      · exact h2b f hf
      · subst hf
        trivial
    · rw [if_neg ht2]
      obtain ⟨h3a, h3b⟩ := maybeFlush_inv uf (maybeStart cf (appendFrame n s)).1 h2a
      by_cases ht3 : (maybeFlush uf (maybeStart cf (appendFrame n s)).1).2.2 = true
      · rw [if_pos ht3]
        refine ⟨h3a, ?_⟩
        intro f hf
        simp only [List.mem_append, List.mem_cons, List.not_mem_nil, or_false] at hf
        rcases hf with (hf | hf) | hf
        · exact h2b f hf
        · exact h3b f hf
        · subst hf
          trivial
      · rw [if_neg ht3]
        refine ⟨h3a, ?_⟩
        intro f hf
        simp only [List.mem_append] at hf
        rcases hf with hf | hf
        · exact h2b f hf
        · exact h3b f hf

theorem completeUpload_effects (fails : Bool) (s : SrvState) (hs : SrvInv s) :
    ∀ e ∈ (completeUpload fails s).2.1, EffGood e := by
  unfold completeUpload
  by_cases hm : s.usingMultipart = false
  · rw [if_pos hm]
    cases fails with
    | true =>
      rw [if_pos rfl]
      simp [EffGood]
    | false =>
      rw [if_neg (by simp)]
      simp [EffGood]
  · rw [if_neg hm]
    have hm' : s.usingMultipart = true := by
      revert hm; cases s.usingMultipart <;> simp
    obtain ⟨hs1, hs2⟩ := hs
    have hsome : ∃ parts, s.session = some parts := by
      rw [hm'] at hs1
      cases hsess : s.session with
      | none => rw [hsess] at hs1; simp at hs1
      | some parts => exact ⟨parts, rfl⟩
    obtain ⟨parts, hparts⟩ := hsome
    obtain ⟨hmono, hbnd, hminp⟩ := hs2 parts hparts
    by_cases ha : s.aggBytes = 0
    · rw [flushPart_skip true fails s (Or.inr (Or.inr (Or.inl ha)))]
      dsimp only
      rw [if_neg (by decide)]
      rw [hparts]
      dsimp only [Option.getD_some]
      rw [sortParts_eq_self parts (partsMono_pairwise parts hmono)]
      cases fails with
      | true =>
        rw [if_pos rfl]
        intro e he
        simp only [List.nil_append, List.mem_cons, List.not_mem_nil, or_false] at he
        subst he
        exact effGood_completeMultipart parts hmono hminp
      | false =>
        rw [if_neg (by simp)]
        intro e he
        simp only [List.nil_append, List.mem_cons, List.not_mem_nil, or_false] at he
        rcases he with he | he
        · subst he
          exact effGood_completeMultipart parts hmono hminp
        · subst he
          trivial
    · cases fails with
      | true =>
        rw [flushPart_throw true s hm' (by rw [hparts]; simp) ha (Or.inl rfl)]
        dsimp only
        rw [if_pos rfl]
        intro e he
        simp only [List.mem_cons, List.not_mem_nil, or_false] at he
        subst he
        simp only [EffGood]
        omega
      | false =>
        rw [flushPart_commit true s parts hm' hparts ha (Or.inl rfl)]
        dsimp only
        rw [if_neg (by decide)]
        dsimp only [Option.getD_some]
        have hmono2 := (partsMono_append parts s.partNumber s.aggBytes hmono hbnd).1
        rw [sortParts_eq_self _ (partsMono_pairwise _ hmono2)]
        rw [if_neg (by simp)]
        intro e he
        simp only [List.cons_append, List.nil_append, List.mem_cons,
                   List.not_mem_nil, or_false] at he
        rcases he with he | he | he | he
        · subst he
          simp only [EffGood]
          omega
        · subst he
          simp only [EffGood]
          omega
        · subst he
          exact effGood_completeMultipart_append parts s.partNumber s.aggBytes
            hmono hbnd hminp
        · subst he
          trivial

theorem handleStop_inv (f : Bool) (s : SrvState) (hs : SrvInv s) :
    SrvInv (handleStop f s).1 ∧ ∀ e ∈ (handleStop f s).2, EffGood e := by
  unfold handleStop
  by_cases hk : s.hasKey = false
  · rw [if_pos hk]
    exact ⟨hs, by simp [EffGood]⟩
  · rw [if_neg hk]
    dsimp only
    refine ⟨⟨rfl, ?_⟩, ?_⟩
    · intro parts hp
      simp at hp
    · by_cases ht : (completeUpload f s).2.2 = true
      · rw [if_pos ht]
        intro e he
        rcases List.mem_append.mp he with he | he
        · exact completeUpload_effects f s hs e he
        · simp at he
          subst he
          trivial
      · rw [if_neg ht]
        exact completeUpload_effects f s hs

theorem handleStart_inv (s : SrvState) (hs : SrvInv s) :
    SrvInv (handleStart s).1 ∧ ∀ e ∈ (handleStart s).2, EffGood e := by
  unfold handleStart
  by_cases hk : s.hasKey
  · rw [if_pos hk]
    exact ⟨hs, by simp [EffGood]⟩
  · rw [if_neg hk]
    exact ⟨hs, by simp [EffGood]⟩

theorem srvStep_inv (e : SrvEvent) (s : SrvState) (hs : SrvInv s) :
    SrvInv (srvStep e s).1 ∧ ∀ f ∈ (srvStep e s).2, EffGood f := by
  cases e with
  | start => exact handleStart_inv s hs
  | binary n cf uf => exact handleBinary_inv n cf uf s hs
  | stop f => exact handleStop_inv f s hs

theorem runFrom_inv (events : List SrvEvent) :
    ∀ s : SrvState, SrvInv s →
      SrvInv (runFrom s events).1 ∧ ∀ f ∈ (runFrom s events).2, EffGood f := by
  induction events with
  | nil =>
    intro s hs
    exact ⟨hs, by simp [runFrom]⟩
  | cons e es ih =>
    intro s hs
    obtain ⟨h1, h2⟩ := srvStep_inv e s hs
    obtain ⟨h3, h4⟩ := ih (srvStep e s).1 h1
    refine ⟨by simpa [runFrom] using h3, ?_⟩
    intro f hf
    simp only [runFrom, List.mem_append] at hf
    rcases hf with hf | hf
    · exact h2 f hf
    · exact h4 f hf

theorem srvRun_inv (events : List SrvEvent) :
    SrvInv (srvRun events).1 ∧ ∀ f ∈ (srvRun events).2, EffGood f :=
  runFrom_inv events initState inv_initState

theorem maybeStart_noThrow (s : SrvState) : (maybeStart false s).2.2 = false := by
  unfold maybeStart
  split
  · exact startMultipart_noThrow s
  · rfl

theorem maybeFlush_noThrow (s : SrvState) : (maybeFlush false s).2.2 = false := by
  unfold maybeFlush
  split
  · exact flushPart_noThrow false s
  · rfl

theorem completeUpload_noThrow (s : SrvState) :
    (completeUpload false s).2.2 = false := by
  unfold completeUpload
  by_cases hm : s.usingMultipart = false
  · rw [if_pos hm, if_neg (by simp)]
  · rw [if_neg hm]
    rw [if_neg (by rw [flushPart_noThrow]; simp)]
    rw [if_neg (by simp)]

theorem maybeStart_no_complete (cf : Bool) (s : SrvState) (parts : List SrvPart) :
    SrvEff.completeMultipart parts ∉ (maybeStart cf s).2.1 := by
  unfold maybeStart
  split
  · exact startMultipart_no_complete cf s parts
  · simp

theorem maybeFlush_no_complete (uf : Bool) (s : SrvState) (parts : List SrvPart) :
    SrvEff.completeMultipart parts ∉ (maybeFlush uf s).2.1 := by
  unfold maybeFlush
  split
  · exact flushPart_no_complete false uf s parts
  · simp

theorem handleBinary_no_complete (n : Nat) (cf uf : Bool) (s : SrvState)
    (parts : List SrvPart) :
    SrvEff.completeMultipart parts ∉ (handleBinary n cf uf s).2 := by
  unfold handleBinary
  by_cases hk : s.hasKey = false
  · rw [if_pos hk]
    simp
  · rw [if_neg hk]
    dsimp only
    by_cases ht2 : (maybeStart cf (appendFrame n s)).2.2 = true
    · rw [if_pos ht2]
      intro hc
      rcases List.mem_append.mp hc with hc | hc
      · exact maybeStart_no_complete cf (appendFrame n s) parts hc
      · simp at hc
    · rw [if_neg ht2]
      by_cases ht3 : (maybeFlush uf (maybeStart cf (appendFrame n s)).1).2.2 = true
      · rw [if_pos ht3]
        intro hc
        rcases List.mem_append.mp hc with hc | hc
        · rcases List.mem_append.mp hc with hc | hc
          · exact maybeStart_no_complete cf (appendFrame n s) parts hc
          · exact maybeFlush_no_complete uf _ parts hc
        · simp at hc
      · rw [if_neg ht3]
        intro hc
        rcases List.mem_append.mp hc with hc | hc
        · exact maybeStart_no_complete cf (appendFrame n s) parts hc
        · exact maybeFlush_no_complete uf _ parts hc

theorem flushPart_false_invX (s : SrvState) (_hs : SrvInv s) (hx : SrvInvX s) :
    SrvInvX (flushPart false false s).1 := by
  by_cases h1 : s.usingMultipart = false ∨ s.session = none ∨ s.aggBytes = 0 ∨
      ((false : Bool) = false ∧ s.aggBytes < MIN_PART_SIZE)
  · rw [flushPart_skip false false s h1]
    exact hx
  · push_neg at h1
    obtain ⟨hm, hsess, hagg, hmin⟩ := h1
    have hm' : s.usingMultipart = true := by
      revert hm; cases s.usingMultipart <;> simp
    obtain ⟨parts, hparts⟩ := Option.ne_none_iff_exists'.mp hsess
    have hmin' : MIN_PART_SIZE ≤ s.aggBytes := by
      have := hmin rfl; omega
    obtain ⟨hx1, hx2⟩ := hx
    obtain ⟨hnum, hlen⟩ := hx1 parts hparts
    rw [flushPart_commit false s parts hm' hparts hagg (Or.inr hmin')]
    refine ⟨?_, ?_⟩
    · intro parts' hp'
      have hp'' : parts ++ [{ PartNumber := s.partNumber + 1, size := s.aggBytes }]
          = parts' := by simpa using hp'
      subst hp''
      rw [hlen]
      exact ⟨partsNumbered_append parts s.aggBytes hnum, by simp⟩
    · intro hnone
      simp at hnone

theorem startMultipart_invX (s : SrvState) (hs : SrvInv s) (hx : SrvInvX s)
    (h : s.usingMultipart = false) :
    SrvInvX (startMultipart false s).1 := by
  unfold startMultipart
  rw [if_neg (by simp [h]), if_neg (by simp)]
  obtain ⟨hs1, _⟩ := hs
  have hnone : s.session = none := by
    rw [h] at hs1
    cases hsess : s.session with
    | none => rfl
    | some parts => rw [hsess] at hs1; simp at hs1
  refine ⟨?_, by intro hc; simp at hc⟩
  intro parts hp
  have hp' : ([] : List SrvPart) = parts := by simpa using hp
  subst hp'
  exact ⟨fun i hi => by simp at hi, by simp [hx.2 hnone]⟩

theorem maybeStart_invX (s : SrvState) (hs : SrvInv s) (hx : SrvInvX s) :
    SrvInvX (maybeStart false s).1 := by
  unfold maybeStart
  by_cases h : s.usingMultipart = false ∧ MIN_PART_SIZE ≤ s.aggBytes
  · rw [if_pos h]
    exact startMultipart_invX s hs hx h.1
  · rw [if_neg h]
    exact hx

theorem maybeFlush_invX (s : SrvState) (hs : SrvInv s) (hx : SrvInvX s) :
    SrvInvX (maybeFlush false s).1 := by
  unfold maybeFlush
  by_cases h : s.usingMultipart = true ∧ TARGET_PART_SIZE ≤ s.aggBytes
  · rw [if_pos h]
    exact flushPart_false_invX s hs hx
  · rw [if_neg h]
    exact hx

theorem handleBinary_invX (n : Nat) (s : SrvState) (hs : SrvInv s) (hx : SrvInvX s) :
    SrvInvX (handleBinary n false false s).1 := by
  unfold handleBinary
  by_cases hk : s.hasKey = false
  · rw [if_pos hk]
    exact hx
  · rw [if_neg hk]
    dsimp only
    rw [if_neg (by rw [maybeStart_noThrow]; simp)]
    rw [if_neg (by rw [maybeFlush_noThrow]; simp)]
    have hs' : SrvInv (appendFrame n s) := hs
    have hx' : SrvInvX (appendFrame n s) := hx
    exact maybeFlush_invX (maybeStart false (appendFrame n s)).1
      (maybeStart_inv false (appendFrame n s) hs').1
      (maybeStart_invX (appendFrame n s) hs' hx')

theorem completeUpload_effectsX (s : SrvState) (hs : SrvInv s) (hx : SrvInvX s) :
    ∀ e ∈ (completeUpload false s).2.1, EffGoodX e := by
  unfold completeUpload
  by_cases hm : s.usingMultipart = false
  · rw [if_pos hm, if_neg (by simp)]
    intro e he
    simp only [List.mem_cons, List.not_mem_nil, or_false] at he
    rcases he with he | he <;> subst he <;> trivial
  · rw [if_neg hm]
    have hm' : s.usingMultipart = true := by
      revert hm; cases s.usingMultipart <;> simp
    obtain ⟨hs1, _⟩ := hs
    have hsome : ∃ parts, s.session = some parts := by
      rw [hm'] at hs1
      cases hsess : s.session with
      | none => rw [hsess] at hs1; simp at hs1
      | some parts => exact ⟨parts, rfl⟩
    obtain ⟨parts, hparts⟩ := hsome
    obtain ⟨hx1, hx2⟩ := hx
    obtain ⟨hnum, hlen⟩ := hx1 parts hparts
    by_cases ha : s.aggBytes = 0
    · rw [flushPart_skip true false s (Or.inr (Or.inr (Or.inl ha)))]
      dsimp only
      rw [if_neg (by decide)]
      rw [hparts]
      dsimp only [Option.getD_some]
      rw [sortParts_eq_self parts (partsNumbered_pairwise parts hnum)]
      rw [if_neg (by simp)]
      intro e he
      simp only [List.nil_append, List.mem_cons, List.not_mem_nil, or_false] at he
      rcases he with he | he
      · subst he
        exact hnum
      · subst he
        trivial
    · rw [flushPart_commit true s parts hm' hparts ha (Or.inl rfl)]
      dsimp only
      rw [if_neg (by decide)]
      dsimp only [Option.getD_some]
      have hnum' : partsNumbered
          (parts ++ [{ PartNumber := s.partNumber + 1, size := s.aggBytes }]) := by
        rw [hlen]
        exact partsNumbered_append parts s.aggBytes hnum
      rw [sortParts_eq_self _ (partsNumbered_pairwise _ hnum')]
      rw [if_neg (by simp)]
      intro e he
      simp only [List.cons_append, List.nil_append, List.mem_cons,
                 List.not_mem_nil, or_false] at he
      rcases he with he | he | he | he
      · subst he
        trivial
      · subst he
        trivial
      · subst he
        exact hnum'
      · subst he
        trivial

theorem handleStop_invX (s : SrvState) (hs : SrvInv s) (hx : SrvInvX s) :
    SrvInvX (handleStop false s).1 ∧ ∀ e ∈ (handleStop false s).2, EffGoodX e := by
  unfold handleStop
  by_cases hk : s.hasKey = false
  · rw [if_pos hk]
    refine ⟨hx, ?_⟩
    intro e he
    simp only [List.mem_cons, List.not_mem_nil, or_false] at he
    subst he
    trivial
  · rw [if_neg hk]
    dsimp only
    refine ⟨⟨?_, fun _ => rfl⟩, ?_⟩
    · intro parts hp
      simp at hp
    · rw [if_neg (by rw [completeUpload_noThrow]; simp)]
      exact completeUpload_effectsX s hs hx

theorem srvStep_invX (e : SrvEvent) (s : SrvState) (hs : SrvInv s) (hx : SrvInvX s)
    (hnf : e.noFail = true) :
    SrvInvX (srvStep e s).1 ∧ ∀ f ∈ (srvStep e s).2, EffGoodX f := by
  cases e with
  | start =>
    refine ⟨?_, ?_⟩
    · simp only [srvStep, handleStart]
      by_cases hk : s.hasKey
      · rw [if_pos hk]
        exact hx
      · rw [if_neg hk]
        exact hx
    · intro f hf
      simp only [srvStep, handleStart] at hf
      by_cases hk : s.hasKey
      · rw [if_pos hk] at hf
        simp only [List.mem_cons, List.not_mem_nil, or_false] at hf
        subst hf
        trivial
      · rw [if_neg hk] at hf
        simp only [List.mem_cons, List.not_mem_nil, or_false] at hf
        subst hf
        trivial
  | binary n cf uf =>
    have hflags : cf = false ∧ uf = false := by
      simpa [SrvEvent.noFail] using hnf
    obtain ⟨hcf, huf⟩ := hflags
    subst hcf
    subst huf
    refine ⟨handleBinary_invX n s hs hx, ?_⟩
    intro f hf
    cases f with
    | completeMultipart parts => exact absurd hf (handleBinary_no_complete n false false s parts)
    | createMultipart => trivial
    | uploadPart pn sz => trivial
    | putObject sz => trivial
    | msgUploadInfo => trivial
    | msgPartAck pn sz => trivial
    | msgCompleted => trivial
    | msgError => trivial
  | stop f =>
    have hf : f = false := by
      simpa [SrvEvent.noFail] using hnf
    subst hf
    exact handleStop_invX s hs hx

theorem runFrom_invX (events : List SrvEvent) :
    ∀ s : SrvState, SrvInv s → SrvInvX s → (∀ e ∈ events, e.noFail = true) →
      SrvInvX (runFrom s events).1 ∧ ∀ f ∈ (runFrom s events).2, EffGoodX f := by
  induction events with
  | nil =>
    intro s _ hx _
    exact ⟨hx, by simp [runFrom]⟩
  | cons e es ih =>
    intro s hs hx hnf
    have hse := srvStep_inv e s hs
    have hsx := srvStep_invX e s hs hx (hnf e (by simp))
    obtain ⟨h3, h4⟩ := ih (srvStep e s).1 hse.1 hsx.1 (fun e' he' => hnf e' (by simp [he']))
    refine ⟨by simpa [runFrom] using h3, ?_⟩
    intro f hf
    simp only [runFrom, List.mem_append] at hf
    rcases hf with hf | hf
    · exact hsx.2 f hf
    · exact h4 f hf

theorem srvRun_invX (events : List SrvEvent) (hnf : ∀ e ∈ events, e.noFail = true) :
    SrvInvX (srvRun events).1 ∧ ∀ f ∈ (srvRun events).2, EffGoodX f :=
  runFrom_invX events initState inv_initState invX_initState hnf

/-- Claim C3 counterexample: `flushPart` in `src/server.mjs` increments
`partNumber` and clears the buffer before awaiting `UploadPartCommand`, so
when the first part's upload throws and the next flush succeeds, the
session's committed parts are `[{PartNumber: 2}]` — the 0th committed part
carries number 2, not 0 + 1, refuting `parts[i].number == i+1` (and
"strictly increasing from 1"). -/
theorem c3_counterexample :
    (srvRun [SrvEvent.start, SrvEvent.binary 6291456 false true,
             SrvEvent.binary 6291456 false false]).1.session
      = some [{ PartNumber := 2, size := 6291456 }] ∧
    (2 : Nat) ≠ 0 + 1 := by
  refine ⟨by decide, by decide⟩

/-- Claim C3 (amended): for every session and every sequence of committed
parts — whether observed in the live session state or in the part list
handed to complete-multipart-upload — the part numbers are strictly
increasing (hence unique), and every committed part except possibly the
last has size at least the `MIN_PART_SIZE` threshold; when no store call in
the run fails, the i-th committed part (0-based) has part number exactly
`i + 1`. -/
theorem c3_parts_increasing_min_size (events : List SrvEvent) (parts : List SrvPart)
    (h : SrvEff.completeMultipart parts ∈ (srvRun events).2 ∨
         (srvRun events).1.session = some parts) :
    (∀ i j (hi : i < parts.length) (hj : j < parts.length), i < j →
       (parts.get ⟨i, hi⟩).PartNumber < (parts.get ⟨j, hj⟩).PartNumber) ∧
    (∀ i (hi : i < parts.length), i + 1 < parts.length →
       MIN_PART_SIZE ≤ (parts.get ⟨i, hi⟩).size) ∧
    ((∀ e ∈ events, e.noFail = true) →
       ∀ i (hi : i < parts.length), (parts.get ⟨i, hi⟩).PartNumber = i + 1) := by
  obtain ⟨hinv, heff⟩ := srvRun_inv events
  refine ⟨?_, ?_, ?_⟩
  · rcases h with h | h
    · exact (heff _ h).1
    · exact (hinv.2 parts h).1
  · rcases h with h | h
    · exact (heff _ h).2
    · intro i hi _
      simp only [List.get_eq_getElem]
      exact (hinv.2 parts h).2.2 parts[i] (List.getElem_mem hi)
  · intro hnf
    obtain ⟨hinvX, heffX⟩ := srvRun_invX events hnf
    rcases h with h | h
    · exact heffX _ h
    · exact (hinvX.1 parts h).1

/-- Claim C3 witness: in a failure-free trace committing one 6 MiB part,
the single committed part carries part number 1. -/
theorem c3_parts_increasing_min_size_witness :
    (([{ PartNumber := 1, size := 6291456 }] : List SrvPart).get
      ⟨0, by decide⟩).PartNumber = 0 + 1 :=
  (c3_parts_increasing_min_size
    [SrvEvent.start, SrvEvent.binary 6291456 false false, SrvEvent.stop false]
    [{ PartNumber := 1, size := 6291456 }] (Or.inl (by decide))).2.2
    (by decide) 0 (by decide)

/-- Claim C4 counterexample: `usingMultipart` is set only after the awaited
`CreateMultipartUploadCommand` returns, so when the first Create call throws
the mode stays Undecided, the buffered bytes stay above the threshold, and
the next frame issues a second `CreateMultipartUploadCommand` — two begin
calls in one session, refuting "issued at most once". -/
theorem c4_counterexample :
    ((srvRun [SrvEvent.start, SrvEvent.binary 6291456 true false,
              SrvEvent.binary 1 false false]).2.count SrvEff.createMultipart) = 2 := by
  decide

theorem handleBinary_keeps_multipart (n : Nat) (cf uf : Bool) (s : SrvState)
    (h : s.usingMultipart = true) :
    (handleBinary n cf uf s).1.usingMultipart = true ∧
    SrvEff.createMultipart ∉ (handleBinary n cf uf s).2 := by
  unfold handleBinary
  by_cases hk : s.hasKey = false
  · rw [if_pos hk]
    exact ⟨h, by simp⟩
  · rw [if_neg hk]
    dsimp only
    have happ : (appendFrame n s).usingMultipart = true := h
    have hns : maybeStart cf (appendFrame n s) = (appendFrame n s, [], false) := by
      unfold maybeStart
      rw [if_neg]
      intro hc
      rw [happ] at hc
      simp at hc
    rw [hns]
    dsimp only
    rw [if_neg (by decide)]
    obtain ⟨hf1, hf2⟩ := flushPart_keeps_multipart false uf (appendFrame n s)
    unfold maybeFlush
    by_cases hcond : (appendFrame n s).usingMultipart = true ∧
        TARGET_PART_SIZE ≤ (appendFrame n s).aggBytes
    · rw [if_pos hcond]
      by_cases ht : (flushPart false uf (appendFrame n s)).2.2 = true
      · rw [if_pos ht]
        refine ⟨by rw [hf1]; exact happ, ?_⟩
        intro hc
        simp only [List.nil_append, List.mem_append, List.mem_cons,
                   List.not_mem_nil, or_false] at hc
        rcases hc with hc | hc
        · exact hf2 hc
        · simp at hc
      · rw [if_neg ht]
        refine ⟨by rw [hf1]; exact happ, ?_⟩
        intro hc
        simp only [List.nil_append] at hc
        exact hf2 hc
    · rw [if_neg hcond]
      dsimp only
      rw [if_neg (by decide)]
      exact ⟨happ, by simp⟩

theorem maybeFlush_keeps_multipart (uf : Bool) (s : SrvState) :
    (maybeFlush uf s).1.usingMultipart = s.usingMultipart ∧
    SrvEff.createMultipart ∉ (maybeFlush uf s).2.1 := by
  unfold maybeFlush
  split
  · exact flushPart_keeps_multipart false uf s
  · exact ⟨rfl, by simp⟩

theorem handleBinary_create_from_undecided (n : Nat) (uf : Bool) (s : SrvState)
    (h : s.usingMultipart = false) :
    ((handleBinary n false uf s).1.usingMultipart = false ∧
     SrvEff.createMultipart ∉ (handleBinary n false uf s).2) ∨
    ((handleBinary n false uf s).1.usingMultipart = true ∧
     (handleBinary n false uf s).2.count SrvEff.createMultipart ≤ 1) := by
  unfold handleBinary
  by_cases hk : s.hasKey = false
  · rw [if_pos hk]
    exact Or.inl ⟨h, by simp⟩
  · rw [if_neg hk]
    dsimp only
    have happ : (appendFrame n s).usingMultipart = false := h
    by_cases hcond : (appendFrame n s).usingMultipart = false ∧
        MIN_PART_SIZE ≤ (appendFrame n s).aggBytes
    · have hms : maybeStart false (appendFrame n s)
          = ({ appendFrame n s with session := some [], usingMultipart := true },
             [SrvEff.createMultipart, SrvEff.msgUploadInfo], false) := by
        unfold maybeStart startMultipart
        rw [if_pos hcond, if_neg (by simp [happ]), if_neg (by simp)]
      rw [hms]
      dsimp only
      rw [if_neg (by decide)]
      right
      set s2 : SrvState := { appendFrame n s with session := some [], usingMultipart := true }
      obtain ⟨hf1, hf2⟩ := maybeFlush_keeps_multipart uf s2
      have hcnt : (maybeFlush uf s2).2.1.count SrvEff.createMultipart = 0 :=
        List.count_eq_zero.mpr hf2
      by_cases ht : (maybeFlush uf s2).2.2 = true
      · rw [if_pos ht]
        refine ⟨by rw [hf1], ?_⟩
        simp [List.count_append, List.count_cons, hcnt]
      · rw [if_neg ht]
        refine ⟨by rw [hf1], ?_⟩
        simp [List.count_append, List.count_cons, hcnt]
    · have hms : maybeStart false (appendFrame n s) = (appendFrame n s, [], false) := by
        unfold maybeStart
        rw [if_neg hcond]
      rw [hms]
      dsimp only
      rw [if_neg (by decide)]
      have hmf : maybeFlush uf (appendFrame n s) = (appendFrame n s, [], false) := by
        unfold maybeFlush
        rw [if_neg]
        intro hc
        rw [happ] at hc
        simp at hc
      rw [hmf]
      dsimp only
      rw [if_neg (by decide)]
      exact Or.inl ⟨happ, by simp⟩

/-- Claim C4 (amended): the completed Undecided-to-Multipart transition is
one-way and guarded — once `usingMultipart` is set, any further sequence of
binary frame arrivals (store failures included) leaves it set and issues no
further `CreateMultipartUploadCommand` — and in a run of frames in which no
store call fails, the begin call is issued at most once.  A begin call that
throws leaves the mode Undecided and is re-issued on a later qualifying
frame (see the counterexample). -/
theorem c4_multipart_begin_amended (s : SrvState) (events : List SrvEvent)
    (hbin : ∀ e ∈ events, e.isBinary = true) :
    (s.usingMultipart = true →
       (runFrom s events).1.usingMultipart = true ∧
       SrvEff.createMultipart ∉ (runFrom s events).2) ∧
    ((∀ e ∈ events, e.noFail = true) →
       (runFrom s events).2.count SrvEff.createMultipart ≤ 1) := by
  induction events generalizing s with
  | nil =>
    exact ⟨fun h => ⟨h, by simp [runFrom]⟩, fun _ => by simp [runFrom]⟩
  | cons e es ih =>
    have hb : e.isBinary = true := hbin e (by simp)
    obtain ⟨n, cf, uf, he⟩ : ∃ n cf uf, e = SrvEvent.binary n cf uf := by
      cases e with
      | binary n cf uf => exact ⟨n, cf, uf, rfl⟩
      | start => simp [SrvEvent.isBinary] at hb
      | stop f => simp [SrvEvent.isBinary] at hb
    subst he
    have hbin' : ∀ e ∈ es, e.isBinary = true := fun e he => hbin e (by simp [he])
    constructor
    · intro hflag
      obtain ⟨h1, h2⟩ := handleBinary_keeps_multipart n cf uf s hflag
      obtain ⟨h3, h4⟩ := (ih (handleBinary n cf uf s).1 hbin').1 h1
      refine ⟨by simpa [runFrom, srvStep] using h3, ?_⟩
      intro hc
      simp only [runFrom, srvStep, List.mem_append] at hc
      rcases hc with hc | hc
      · exact h2 hc
      · exact h4 hc
    · intro hnf
      have hnfe : (SrvEvent.binary n cf uf).noFail = true := hnf _ (by simp)
      have hflags : cf = false ∧ uf = false := by
        simpa [SrvEvent.noFail] using hnfe
      obtain ⟨hcf, _⟩ := hflags
      subst hcf
      have hnf' : ∀ e ∈ es, e.noFail = true := fun e he => hnf e (by simp [he])
      have hsplit : (runFrom s (SrvEvent.binary n false uf :: es)).2
          = (handleBinary n false uf s).2
            ++ (runFrom (handleBinary n false uf s).1 es).2 := by
        simp [runFrom, srvStep]
      rw [hsplit, List.count_append]
      by_cases hflag : s.usingMultipart = true
      · obtain ⟨h1, h2⟩ := handleBinary_keeps_multipart n false uf s hflag
        obtain ⟨h3, h4⟩ := (ih (handleBinary n false uf s).1 hbin').1 h1
        have hc1 : (handleBinary n false uf s).2.count SrvEff.createMultipart = 0 :=
          List.count_eq_zero.mpr h2
        have hc2 : (runFrom (handleBinary n false uf s).1 es).2.count
            SrvEff.createMultipart = 0 := List.count_eq_zero.mpr h4
        omega
      · have hflag' : s.usingMultipart = false := by
          revert hflag; cases s.usingMultipart <;> simp
        rcases handleBinary_create_from_undecided n uf s hflag' with ⟨h1, h2⟩ | ⟨h1, h2⟩
        · have hc1 : (handleBinary n false uf s).2.count SrvEff.createMultipart = 0 :=
            List.count_eq_zero.mpr h2
          have hc2 := (ih (handleBinary n false uf s).1 hbin').2 hnf'
          omega
        · have hc2 : (runFrom (handleBinary n false uf s).1 es).2.count
              SrvEff.createMultipart = 0 :=
            List.count_eq_zero.mpr ((ih (handleBinary n false uf s).1 hbin').1 h1).2
          omega

/-- Claim C4 witness: from the multipart state reached by a successful 6 MiB
frame, two further frames — the second with a failing upload call — leave
multipart set and issue no further begin call; and the failure-free prefix
issues exactly one. -/
theorem c4_multipart_begin_amended_witness :
    SrvEff.createMultipart ∉
      (runFrom (srvRun [SrvEvent.start, SrvEvent.binary 6291456 false false]).1
        [SrvEvent.binary 2097152 false false, SrvEvent.binary 2097152 false true]).2 :=
  ((c4_multipart_begin_amended
    (srvRun [SrvEvent.start, SrvEvent.binary 6291456 false false]).1
    [SrvEvent.binary 2097152 false false, SrvEvent.binary 2097152 false true]
    (by decide)).1 (by decide)).2

/-- Claim C9: every part the server ever commits — or even attempts to
commit, store failures included — has strictly positive size, and the
commit operation `flushPart` (the forced final flush with `isFinal = true`
included) is a no-op on an empty aggregation buffer. -/
theorem c9_no_zero_byte_parts (events : List SrvEvent) :
    (∀ n sz, SrvEff.uploadPart n sz ∈ (srvRun events).2 → 0 < sz) ∧
    ∀ (s : SrvState) (uf : Bool), s.aggBytes = 0 → flushPart true uf s = (s, [], false) := by
  refine ⟨?_, ?_⟩
  · intro n sz hmem
    have hg := (srvRun_inv events).2 _ hmem
    simpa [EffGood] using hg
  · intro s uf h0
    exact flushPart_skip true uf s (Or.inr (Or.inr (Or.inl h0)))

/-- Claim C9 witness: the part committed in a concrete trace is nonempty,
and a final flush on the empty initial buffer does nothing. -/
theorem c9_no_zero_byte_parts_witness :
    0 < 6291456 ∧ flushPart true false initState = (initState, [], false) :=
  ⟨(c9_no_zero_byte_parts
      [SrvEvent.start, SrvEvent.binary 6291456 false false, SrvEvent.stop false]).1
      1 6291456 (by decide),
   (c9_no_zero_byte_parts []).2 initState false rfl⟩

/-- Claim C10: processing a stop for an active session — whether the
finalize succeeds (`fails = false`) or throws and is answered with an error
acknowledgment (`fails = true`) — resets the session record, key, part
counter, aggregation buffer and multipart flag together, and a subsequent
start on the same connection is accepted with a fresh key (it sends
`uploadInfo`, not the session-conflict error). -/
theorem c10_stop_resets_session (s : SrvState) (fails : Bool) (h : s.hasKey = true) :
    (srvStep (SrvEvent.stop fails) s).1.session = none ∧
    (srvStep (SrvEvent.stop fails) s).1.hasKey = false ∧
    (srvStep (SrvEvent.stop fails) s).1.partNumber = 0 ∧
    (srvStep (SrvEvent.stop fails) s).1.aggBuffers = [] ∧
    (srvStep (SrvEvent.stop fails) s).1.aggBytes = 0 ∧
    (srvStep (SrvEvent.stop fails) s).1.usingMultipart = false ∧
    (srvStep SrvEvent.start (srvStep (SrvEvent.stop fails) s).1).2
      = [SrvEff.msgUploadInfo] ∧
    (srvStep SrvEvent.start (srvStep (SrvEvent.stop fails) s).1).1.hasKey = true := by
  have hstop : srvStep (SrvEvent.stop fails) s
      = ({ (completeUpload fails s).1 with
            session := none, hasKey := false, partNumber := 0,
            aggBuffers := [], aggBytes := 0, usingMultipart := false },
         if (completeUpload fails s).2.2 = true then
           (completeUpload fails s).2.1 ++ [SrvEff.msgError]
         else (completeUpload fails s).2.1) := by
    show handleStop fails s = _
    unfold handleStop
    rw [if_neg (by simp [h])]
  rw [hstop]
  exact ⟨rfl, rfl, rfl, rfl, rfl, rfl, by simp [srvStep, handleStart],
         by simp [srvStep, handleStart]⟩

/-- Claim C10 witness: a failed stop right after a start still resets the
key, and the following start is accepted. -/
theorem c10_stop_resets_session_witness :
    (srvStep (SrvEvent.stop true) (srvRun [SrvEvent.start]).1).1.hasKey = false ∧
    (srvStep SrvEvent.start
      (srvStep (SrvEvent.stop true) (srvRun [SrvEvent.start]).1).1).2
      = [SrvEff.msgUploadInfo] := by
  have h := c10_stop_resets_session (srvRun [SrvEvent.start]).1 true (by decide)
  exact ⟨h.2.1, h.2.2.2.2.2.2.1⟩
